import Mathlib

/-
Verification development for the `bevy_simple_preferences` crate.

The file shallowly embeds the parts of the crate that the checked
properties talk about:

* the type registry and `effective_type_path` resolution
  (src/serializable_map.rs, src/reflect_map.rs);
* the preferences map (`BTreeMap<String, Box<dyn Reflect>>`) with
  `set`, `get`, `take` and its `Serialize` and `DeserializeSeed`
  implementations;
* the conversion step `PreferencesRegistryData::apply_from_reflect`
  (src/registry.rs);
* `load_preferences` and the debounced `save_preferences` scheduler
  (src/plugin.rs);
* the atomic file write path `write_atomically` (src/storage/fs.rs);
* the two `PartialEq` implementations of the map types.

Reflected values are modelled over a small universe: structs whose
fields are numeric or string leaves.  This is enough to express every
checked property while staying executable.
-/

set_option maxHeartbeats 1000000

namespace BevyPrefs

/-- Field kinds of the small reflection universe used to model
`bevy_reflect` struct fields (numeric and string leaves). -/
inductive FKind where
  | natK
  | strK
deriving DecidableEq

/-- Field values of the reflection universe. -/
inductive FVal where
  | natV (n : Nat)
  | strV (s : String)
deriving DecidableEq

/-- Runtime kind of a field value. -/
def FVal.kind : FVal → FKind
  | .natV _ => .natK
  | .strV _ => .strK

/-- Named fields of a struct value, in order. -/
abbrev Fields := List (String × FVal)

/-- Declared shape of a struct type: field names and kinds in order. -/
abbrev Shape := List (String × FKind)

/-- One registered preferences type: its `TypeId` (`tid`), its full and
short type paths, the declared struct shape, and the `ReflectDefault`
type data registered for it (`hasDefault`, `defaultFields`).
`register_preferences` (src/registry.rs) always registers the
`Preferences` and `FromReflect` type data, so those capabilities are
implicit for every `TypeDef`. -/
structure TypeDef where
  tid : Nat
  fullPath : String
  shortPath : String
  shape : Shape
  hasDefault : Bool
  defaultFields : Fields
deriving DecidableEq

/-- The type registry contents, in registration order.  Models the part
of `bevy_reflect::TypeRegistry` the crate consumes. -/
abbrev Registry := List TypeDef

/-- Reserved runtime `TypeId` of `bevy_reflect::DynamicStruct`; a value
whose `runtimeId` equals it is a dynamic (partial) value that only
represents its `reprId` type. -/
def dynamicStructId : Nat := 0

/-- A reflected value: its runtime `TypeId`, the `TypeId` of the type it
represents, and its fields.  A concrete value of type `td` has
`runtimeId = reprId = td.tid`; a deserialized partial value has
`runtimeId = dynamicStructId`. -/
structure RVal where
  runtimeId : Nat
  reprId : Nat
  fields : Fields
deriving DecidableEq

/-- First field with the given name, as `Struct::field` does. -/
def lookupField : Fields → String → Option FVal
  | [], _ => none
  | (m, v) :: rest, n => if m = n then some v else lookupField rest n

/-- Kind of the declared field with the given name, if any. -/
def shapeFind : Shape → String → Option FKind
  | [], _ => none
  | (m, k) :: rest, n => if m = n then some k else shapeFind rest n

/-- Overwrite the named field (used by `try_apply` on a recognized
field). -/
def setField : Fields → String → FVal → Fields
  | [], _, _ => []
  | (m, v) :: rest, n, w =>
    if m = n then (n, w) :: setField rest n w else (m, v) :: setField rest n w

/-- The unique element of a singleton list, if the list is one. -/
def singletonOf : List TypeDef → Option TypeDef
  | [td] => some td
  | _ => none

/-- Models `TypeRegistry::get_with_short_type_path`.  bevy's registry
keeps a short-path index from which ambiguous names are evicted: a short
path resolves exactly when exactly one registered type claims it. -/
def getWithShortTypePath (reg : Registry) (s : String) : Option TypeDef :=
  singletonOf (reg.filter (fun td => td.shortPath == s))

/-- Models `TypeRegistry::get_with_type_path` (full paths are unique per
registered type). -/
def getWithTypePath (reg : Registry) (p : String) : Option TypeDef :=
  reg.find? (fun td => td.fullPath == p)

/-- Outcome of `effective_type_path` (src/serializable_map.rs:139-153):
either a storage key, or one of its two panics (the `assert_eq!` on a
short-path mismatch, and the final unregistered-type `panic!` - both are
programmer errors, distinct from the serde data errors of `DeResult`). -/
inductive Resolved where
  | key (k : String)
  | assertMismatch
  | notRegistered
deriving DecidableEq

/-- Models `effective_type_path` (src/serializable_map.rs:139-153 and
the identical copy in src/reflect_map.rs): prefer the short path when
its unique registration matches the queried full path, else fall back to
the registered full path, else fail. -/
def effective_type_path (type_path short_type_path : String) (reg : Registry) : Resolved :=
  match getWithShortTypePath reg short_type_path with
  | some td =>
    if td.fullPath = type_path then .key short_type_path else .assertMismatch
  | none =>
    if (getWithTypePath reg type_path).isSome then .key type_path else .notRegistered

/-- The preferences map contents: models the
`BTreeMap<String, Box<dyn Reflect>>` of `PreferencesSerializableMap`
and `PreferencesReflectMap` as a key-sorted association list. -/
abbrev PrefMap := List (String × RVal)

/-- `BTreeMap::insert`: keeps keys sorted, replaces an existing key. -/
def btreeInsert (m : PrefMap) (k : String) (v : RVal) : PrefMap :=
  match m with
  | [] => [(k, v)]
  | (k1, v1) :: rest =>
    match compare k k1 with
    | .lt => (k, v) :: (k1, v1) :: rest
    | .eq => (k, v) :: rest
    | .gt => (k1, v1) :: btreeInsert rest k v

/-- `BTreeMap::get`. -/
def lookupKey : PrefMap → String → Option RVal
  | [], _ => none
  | (k1, v) :: rest, k => if k1 = k then some v else lookupKey rest k

/-- `BTreeMap::remove` (drops the entry under the key). -/
def eraseKey : PrefMap → String → PrefMap
  | [], _ => []
  | (k1, v) :: rest, k => if k1 = k then rest else (k1, v) :: eraseKey rest k

/-- Result of a map operation that may hit one of the
`effective_type_path` panics. -/
inductive OpResult (α : Type) where
  | ok (a : α)
  | panicked
deriving DecidableEq

/-- Models `PreferencesSerializableMap::set` (src/serializable_map.rs:
224-230): key the concrete value `⟨td.tid, td.tid, fs⟩` by its effective
type path. -/
def setPref (reg : Registry) (m : PrefMap) (td : TypeDef) (fs : Fields) :
    OpResult PrefMap :=
  match effective_type_path td.fullPath td.shortPath reg with
  | .key k => .ok (btreeInsert m k ⟨td.tid, td.tid, fs⟩)
  | _ => .panicked

/-- Models `PreferencesSerializableMap::get` (src/serializable_map.rs:
263-269): lookup under the effective type path, then a downcast check
against `T`'s `TypeId`. -/
def getPref (reg : Registry) (m : PrefMap) (td : TypeDef) :
    OpResult (Option RVal) :=
  match effective_type_path td.fullPath td.shortPath reg with
  | .key k =>
    .ok ((lookupKey m k).bind (fun v => if v.runtimeId = td.tid then some v else none))
  | _ => .panicked

/-- Models `PreferencesSerializableMap::take` (src/serializable_map.rs:
290-298, same code in src/reflect_map.rs:299-307): the entry is removed
first, then the downcast is attempted; a failed downcast still leaves
the entry removed. -/
def takePref (reg : Registry) (m : PrefMap) (td : TypeDef) :
    OpResult (Option RVal × PrefMap) :=
  match effective_type_path td.fullPath td.shortPath reg with
  | .key k =>
    match lookupKey m k with
    | some v => .ok ((if v.runtimeId = td.tid then some v else none), eraseKey m k)
    | none => .ok (none, m)
  | _ => .panicked

/-- The serialized document: an ordered map from storage key to the
serialized form of the value (its field tree). -/
abbrev Document := List (String × Fields)

/-- Models `impl Serialize for PreferencesSerializableMap`
(src/serializable_map.rs:311-329): each entry is written under its
stored key with `TypedReflectSerializer` emitting the field tree. -/
def serializePrefMap (m : PrefMap) : Document :=
  m.map (fun p => (p.1, p.2.fields))

/-- A value's fields conform to a shape when names and kinds agree
positionally (the layout of a concrete value of the type). -/
abbrev fieldsConform (shape : Shape) (fs : Fields) : Prop :=
  fs.map (fun p => (p.1, p.2.kind)) = shape

/-- Models the derived `FromReflect` on one struct: every declared field
must be present in the partial value with the declared kind; extra
fields of the partial value are ignored. -/
def fromReflectFields (shape : Shape) (fs : Fields) : Option Fields :=
  match shape with
  | [] => some []
  | (n, k) :: rest =>
    match lookupField fs n with
    | some v =>
      if v.kind = k then (fromReflectFields rest fs).map (fun out => (n, v) :: out)
      else none
    | none => none

/-- Models `ReflectFromReflect::from_reflect` for the target type `td`:
on success the result is a concrete value of `td`. -/
def fromReflect (td : TypeDef) (v : RVal) : Option RVal :=
  (fromReflectFields td.shape v.fields).map (fun fs => ⟨td.tid, td.tid, fs⟩)

/-- Models bevy's `Struct::try_apply` of a partial value onto target
fields: each source field that names a target field overwrites it (a
kind mismatch is an `ApplyError`); source fields unknown to the target
are skipped; target fields the source misses are left alone. -/
def tryApplyFields (target : Fields) : Fields → Option Fields
  | [] => some target
  | (n, v) :: rest =>
    match lookupField target n with
    | some tv =>
      if tv.kind = v.kind then tryApplyFields (setField target n v) rest else none
    | none => tryApplyFields target rest

/-- Models `PreferencesRegistryData::apply_from_reflect`
(src/registry.rs:65-96).  `none` models the final
`unwrap_or_else(panic)` at src/registry.rs:92-95: it is reached both
when no default is registered and when `try_apply` onto the default
fails. -/
def apply_from_reflect (td : TypeDef) (v : RVal) : Option RVal :=
  if v.runtimeId = td.tid then some v
  else
    match fromReflect td v with
    | some c => some c
    | none =>
      if td.hasDefault then
        match tryApplyFields td.defaultFields v.fields with
        | some fs => some ⟨td.tid, td.tid, fs⟩
        | none => none
      else none

/-- Models `TypedReflectDeserializer` on the body of one document entry:
a field unknown to the declared shape or of the wrong kind is a
deserialization error; declared fields may be missing.  The result is a
dynamic value (`runtimeId = dynamicStructId`) representing `td`. -/
def typedDeserializeFields (shape : Shape) : Fields → Except String Fields
  | [] => .ok []
  | (n, v) :: rest =>
    match shapeFind shape n with
    | some k =>
      if v.kind = k then
        match typedDeserializeFields shape rest with
        | .ok out => .ok ((n, v) :: out)
        | .error e => .error e
      else .error ("invalid type for field " ++ n)
    | none => .error ("unknown field " ++ n)

/-- Typed deserialization of one entry body for registration `td`. -/
def typedReflectDeserialize (td : TypeDef) (body : Fields) : Except String RVal :=
  match typedDeserializeFields td.shape body with
  | .ok fs => .ok ⟨dynamicStructId, td.tid, fs⟩
  | .error e => .error e

/-- Registration lookup used by `MapVisitor::visit_map`
(src/serializable_map.rs:379-387): short type path first, then full
type path. -/
def lookupRegistration (reg : Registry) (k : String) : Option TypeDef :=
  match getWithShortTypePath reg k with
  | some td => some td
  | none => getWithTypePath reg k

/-- Models the loop of `MapVisitor::visit_map`
(src/serializable_map.rs:371-398): each entry's registration is looked
up short-path-first; an unregistered identifier is a hard
deserialization error that aborts the whole visit; deserialized values
are inserted into a fresh `BTreeMap`. -/
def deserializeEntriesAux (reg : Registry) (acc : List (String × RVal)) :
    Document → Except String (List (String × RVal))
  | [] => .ok acc
  | (k, body) :: rest =>
    match lookupRegistration reg k with
    | none => .error ("Type " ++ k ++ " not registered")
    | some td =>
      match typedReflectDeserialize td body with
      | .ok v => deserializeEntriesAux reg (btreeInsert acc k v) rest
      | .error e => .error e

/-- The visitor applied to a whole document. -/
def deserializeEntries (reg : Registry) (doc : Document) :
    Except String (List (String × RVal)) :=
  deserializeEntriesAux reg [] doc

/-- Models `TypeRegistry::get` by `TypeId`, used by
`PreferencesRegistryData::from_type_info`. -/
def registryGetById (reg : Registry) (id : Nat) : Option TypeDef :=
  reg.find? (fun td => td.tid == id)

/-- Models the conversion loop of
`PreferencesReflectMap::from_dynamic_values` (src/reflect_map.rs:
182-215, invoked by the seed in src/serializable_map.rs:406-409): every
deserialized value is converted to its concrete type with
`apply_from_reflect`; `none` models a panic escaping the conversion. -/
def convertAll (reg : Registry) : List (String × RVal) → Option PrefMap
  | [] => some []
  | (k, v) :: rest =>
    match registryGetById reg v.reprId with
    | some td =>
      match apply_from_reflect td v with
      | some c => (convertAll reg rest).map (fun out => (k, c) :: out)
      | none => none
    | none => none

/-- Result of deserializing a document: a map, a serde-level error
(caught by `load_preferences`), or a panic (not caught). -/
inductive DeResult where
  | ok (m : PrefMap)
  | deError (e : String)
  | panicked
deriving DecidableEq

/-- Models `DeserializeSeed for PreferencesSerializableMapSeed`
(src/serializable_map.rs:353-411): run the visitor, then convert all
dynamic values to concrete values. -/
def deserializePrefMap (reg : Registry) (doc : Document) : DeResult :=
  match deserializeEntries reg doc with
  | .error e => .deError e
  | .ok vals =>
    match convertAll reg vals with
    | some m => .ok m
    | none => .panicked

/-- Models `load_preferences` (src/plugin.rs:215-248) over a storage
whose file contents are `file` (`none` is the not-found I/O error).
Every storage error, including a deserialization error, degrades to an
empty map; `none` in the result models a panic during conversion. -/
def loadPreferences (reg : Registry) (file : Option Document) : Option PrefMap :=
  match file with
  | none => some []
  | some doc =>
    match deserializePrefMap reg doc with
    | .ok m => some m
    | .deError _ => some []
    | .panicked => none

/-- Models `RegisteredPreferencesPlugin::assign_initial_value`
(src/registry.rs:197-212): take the stored value of the type from the
map, fall back to the registered default value. -/
def assignFromMap (reg : Registry) (m : PrefMap) (td : TypeDef) (dflt : Fields) :
    OpResult (Fields × PrefMap) :=
  match takePref reg m td with
  | .ok (stored, rest) =>
    .ok ((match stored with | some v => v.fields | none => dflt), rest)
  | .panicked => .panicked

/-- Input visible to one run of `save_preferences` (src/plugin.rs:
254-296): `elapsed` is `Time<Real>::elapsed` in milliseconds, `mapTick`
is `preferences.last_changed()` as a monotone change counter, `appExit`
tells whether an `AppExit` event is pending. -/
structure TickIn where
  elapsed : Nat
  mapTick : Nat
  appExit : Bool
deriving DecidableEq

/-- The `Local` state of `save_preferences`: `last_save_tick` and
`last_save_time` (milliseconds). -/
structure SchedState where
  lastSaveTick : Nat
  lastSaveTime : Nat
deriving DecidableEq

/-- `Duration::as_secs` with durations carried in milliseconds. -/
def durAsSecs (d : Nat) : Nat := d / 1000

/-- Initial scheduler state.  `last_save_tick` is a `Local<Option<Tick>>`
set on the first run to `system_change_tick.last_run()` (the
`baseline`); `last_save_time` is a `Local<Duration>` starting at zero. -/
def initState (baseline : Nat) : SchedState :=
  { lastSaveTick := baseline, lastSaveTime := 0 }

/-- One run of `save_preferences` (src/plugin.rs:254-296): compute
`is_modified`, suppress the save while less than one second has passed
since the previous save, force it when an `AppExit` event is pending and
the map is modified; a triggered save updates both locals (src/plugin.rs:
287-295 updates them whether or not the storage call succeeded). -/
def stepSave (s : SchedState) (i : TickIn) : SchedState × Bool :=
  let is_modified : Bool := decide (s.lastSaveTick < i.mapTick)
  let afterDebounce : Bool :=
    if is_modified && decide (durAsSecs (i.elapsed - s.lastSaveTime) < 1) then false
    else is_modified
  let shouldTriggerSave : Bool :=
    if i.appExit && is_modified then true else afterDebounce
  if shouldTriggerSave then
    ({ lastSaveTick := i.mapTick, lastSaveTime := i.elapsed }, true)
  else (s, false)

/-- Scheduler state after a sequence of ticks. -/
def runSched (s : SchedState) : List TickIn → SchedState
  | [] => s
  | i :: rest => runSched (stepSave s i).1 rest

/-- Number of save calls `save_preferences` makes over a sequence of
ticks. -/
def runSaves (s : SchedState) : List TickIn → Nat
  | [] => 0
  | i :: rest =>
    (if (stepSave s i).2 then 1 else 0) + runSaves (stepSave s i).1 rest

/-- A list of (elapsed, mapTick) mutation ticks, each strictly advancing
the change counter and arriving at least one second after the previous
save. -/
def spacedOk (lastTick lastTime : Nat) : List (Nat × Nat) → Bool
  | [] => true
  | (t, mt) :: rest =>
    decide (lastTick < mt) && decide (lastTime + 1000 ≤ t) && spacedOk mt t rest

/-- Observable filesystem state at the destination of one preferences
file: the destination contents (if the file exists) and the contents of
the temporary file (if one exists). -/
structure FsFile where
  dest : Option String
  temp : Option String
deriving DecidableEq

/-- How far `write_atomically` (src/storage/fs.rs:18-31) got before a
crash or failure: before `NamedTempFile::new_in`, after it, partway
through `write_all` (with a prefix of the contents written), after
`write_all`, after `sync_all`, or after the `persist` rename. -/
inductive CrashPoint where
  | beforeTemp
  | afterTempCreate
  | midWrite (written : Nat)
  | afterWrite
  | afterSync
  | afterPersist
deriving DecidableEq

/-- Models `write_atomically` (src/storage/fs.rs:18-31) observed at an
arbitrary stop point: all writing happens in the temporary file, and
only the final `persist` (an atomic rename) replaces the destination. -/
def write_atomically (fs : FsFile) (contents : String) (c : CrashPoint) : FsFile :=
  match c with
  | .beforeTemp => fs
  | .afterTempCreate => { fs with temp := some "" }
  | .midWrite w => { fs with temp := some (contents.take w) }
  | .afterWrite => { fs with temp := some contents }
  | .afterSync => { fs with temp := some contents }
  | .afterPersist => { dest := some contents, temp := none }

/-- Models `FileStorage::save_preferences` (src/storage/fs.rs:158-164):
serialize first (`none` is a serialization error, in which case nothing
is written), then `write_atomically`. -/
def fileSave (fs : FsFile) (serialized : Option String) (c : CrashPoint) : FsFile :=
  match serialized with
  | none => fs
  | some out => write_atomically fs out c

/-- Models bevy's `struct_partial_eq`, the value-level equality reached
through `reflect_partial_eq`: same number of fields and, name by name,
equal field values. -/
def fieldsPartialEq (a b : Fields) : Bool :=
  (a.length == b.length) && b.all (fun p => lookupField a p.1 == some p.2)

/-- Value-level `reflect_partial_eq` on reflected struct values (bevy's
struct comparison is structural and ignores the represented type). -/
def rvalPartialEq (a b : RVal) : Bool :=
  fieldsPartialEq a.fields b.fields

/-- Models `impl PartialEq for PreferencesSerializableMap`
(src/serializable_map.rs:112-130): the two ordered entry sequences are
zipped and only the common prefix is compared; there is no length
check. -/
def serializableMapEq (m1 m2 : PrefMap) : Bool :=
  (m1.zip m2).all (fun pr => (pr.1.1 == pr.2.1) && rvalPartialEq pr.1.2 pr.2.2)

/-- Models `impl PartialEq for PreferencesReflectMap`
(src/reflect_map.rs:135-146), which delegates to bevy's
`map_partial_eq`: equal lengths and, key by key, a matching entry in the
other map (the represented-type check always passes between two
`PreferencesReflectMap`s). -/
def reflectMapEq (m1 m2 : PrefMap) : Bool :=
  (m1.length == m2.length) &&
    m1.all (fun p =>
      match lookupKey m2 p.1 with
      | some v => rvalPartialEq p.2 v
      | none => false)

/-- Well-formedness of a registry, as guaranteed by bevy's
`TypeRegistry`: no duplicate registrations, `TypeId`s and full paths
identify registrations, no short path collides with a full path, no
registered type is `DynamicStruct`, and struct shapes have distinct
field names. -/
abbrev RegWF (reg : Registry) : Prop :=
  reg.Nodup ∧
  (∀ a ∈ reg, ∀ b ∈ reg, a.tid = b.tid → a = b) ∧
  (∀ a ∈ reg, ∀ b ∈ reg, a.fullPath = b.fullPath → a = b) ∧
  (∀ a ∈ reg, ∀ b ∈ reg, ¬a.shortPath = b.fullPath) ∧
  (∀ a ∈ reg, ¬a.tid = dynamicStructId) ∧
  (∀ a ∈ reg, (a.shape.map Prod.fst).Nodup)

/-- A demo registered type mirroring `Foo` of the crate's tests. -/
def fooDef : TypeDef :=
  { tid := 1
    fullPath := "demo::Foo"
    shortPath := "Foo"
    shape := [("field", .natK), ("option", .strK)]
    hasDefault := true
    defaultFields := [("field", .natV 0), ("option", .strV "")] }

/-- A demo registered type mirroring `Bar` of the crate's tests. -/
def barDef : TypeDef :=
  { tid := 2
    fullPath := "demo::Bar"
    shortPath := "Bar"
    shape := [("value", .strK)]
    hasDefault := true
    defaultFields := [("value", .strV "")] }

/-- A second type with the short path `Bar`, mirroring `ambiguous::Bar`
of the crate's tests. -/
def ambBarDef : TypeDef :=
  { tid := 3
    fullPath := "demo2::Bar"
    shortPath := "Bar"
    shape := [("value", .strK)]
    hasDefault := true
    defaultFields := [("value", .strV "")] }

/-- A demo type whose stored data can fail both `from_reflect` and
`try_apply` (its single field has an incompatible kind). -/
def cexDef : TypeDef :=
  { tid := 5
    fullPath := "demo::Cex"
    shortPath := "Cex"
    shape := [("a", .natK)]
    hasDefault := true
    defaultFields := [("a", .natV 7)] }

/-- Demo registry without short-path ambiguity. -/
def demoReg : Registry := [fooDef, barDef]

/-- Demo registry in which the short path `Bar` is ambiguous. -/
def ambReg : Registry := [fooDef, barDef, ambBarDef]

/-- Fields of a demo `Foo` value. -/
def fooFields : Fields := [("field", .natV 3), ("option", .strV "x")]

/-- A store holding one well-typed `Bar` entry. -/
def barMap : PrefMap := [("Bar", ⟨2, 2, [("value", .strV "H")]⟩)]

/-- A store holding the `Bar` entry of `barMap` plus a `Foo` entry, so
`barMap`'s key set is a strict subset of its key set. -/
def barFooMap : PrefMap :=
  [("Bar", ⟨2, 2, [("value", .strV "H")]⟩), ("Foo", ⟨1, 1, fooFields⟩)]

/-- A store whose entry under `Bar`'s key holds a value whose concrete
runtime type is `Foo` (`runtimeId = 1`), not `Bar` (`tid = 2`). -/
def wrongTypedMap : PrefMap := [("Bar", ⟨1, 1, [("value", .strV "H")]⟩)]

/-- A document holding one deserializable `Foo` entry followed by an
entry naming an unregistered type. -/
def cexDoc : Document :=
  [("Foo", [("field", .natV 3), ("option", .strV "x")]), ("Nope", [("z", .natV 1)])]

/-- A singleton extraction succeeds exactly on singleton lists. -/
theorem singletonOf_eq_some {l : List TypeDef} {a : TypeDef} :
    singletonOf l = some a ↔ l = [a] := by
  match l with
  | [] => simp [singletonOf]
  | [x] => simp [singletonOf]
  | x :: y :: ys => simp [singletonOf]

/-- A short-path hit comes from the registry and matches the queried
short path. -/
theorem getWithShortTypePath_some {reg : Registry} {s : String} {td : TypeDef}
    (h : getWithShortTypePath reg s = some td) : td ∈ reg ∧ td.shortPath = s := by
  unfold getWithShortTypePath at h
  have hf := singletonOf_eq_some.mp h
  have ha : td ∈ reg.filter (fun td => td.shortPath == s) := by
    rw [hf]; exact List.mem_singleton.mpr rfl
  have := List.mem_filter.mp ha
  simpa using this

/-- If two distinct registrations claim the short path, the short-path
index yields nothing. -/
theorem getWithShortTypePath_none_of_two {reg : Registry} {s : String} {a b : TypeDef}
    (ha : a ∈ reg) (hb : b ∈ reg) (hne : a ≠ b)
    (hsa : a.shortPath = s) (hsb : b.shortPath = s) :
    getWithShortTypePath reg s = none := by
  rcases h : getWithShortTypePath reg s with _ | x
  · rfl
  · exfalso
    unfold getWithShortTypePath at h
    have hf := singletonOf_eq_some.mp h
    have hfa : a ∈ reg.filter (fun td => td.shortPath == s) :=
      List.mem_filter.mpr ⟨ha, by simp [hsa]⟩
    have hfb : b ∈ reg.filter (fun td => td.shortPath == s) :=
      List.mem_filter.mpr ⟨hb, by simp [hsb]⟩
    rw [hf] at hfa hfb
    simp at hfa hfb
    exact hne (hfa.trans hfb.symm)

/-- A full-path hit comes from the registry and matches the queried full
path. -/
theorem getWithTypePath_some {reg : Registry} {p : String} {a : TypeDef}
    (h : getWithTypePath reg p = some a) : a ∈ reg ∧ a.fullPath = p := by
  unfold getWithTypePath at h
  refine ⟨List.mem_of_find?_eq_some h, ?_⟩
  have := List.find?_some h
  simpa using this

/-- With unique full paths, looking up a registered type's full path
returns that registration. -/
theorem getWithTypePath_self {reg : Registry} {td : TypeDef} (htd : td ∈ reg)
    (hfull : ∀ a ∈ reg, ∀ b ∈ reg, a.fullPath = b.fullPath → a = b) :
    getWithTypePath reg td.fullPath = some td := by
  rcases hp : getWithTypePath reg td.fullPath with _ | a
  · unfold getWithTypePath at hp
    have := List.find?_eq_none.mp hp td htd
    simp at this
  · obtain ⟨hmem, heq⟩ := getWithTypePath_some hp
    rw [hfull a hmem td htd heq]

/-- No short path of a registered type is the full path of a registered
type, so a full-path key never hits the short-path index. -/
theorem getWithShortTypePath_fullPath_none {reg : Registry} {td : TypeDef} (htd : td ∈ reg)
    (hsnf : ∀ a ∈ reg, ∀ b ∈ reg, ¬a.shortPath = b.fullPath) :
    getWithShortTypePath reg td.fullPath = none := by
  rcases h : getWithShortTypePath reg td.fullPath with _ | a
  · rfl
  · obtain ⟨hmem, heq⟩ := getWithShortTypePath_some h
    exact absurd heq (hsnf a hmem td htd)

/-- With unique `TypeId`s, looking a registered type up by its `TypeId`
returns that registration. -/
theorem registryGetById_self {reg : Registry} {td : TypeDef} (htd : td ∈ reg)
    (htid : ∀ a ∈ reg, ∀ b ∈ reg, a.tid = b.tid → a = b) :
    registryGetById reg td.tid = some td := by
  rcases hp : registryGetById reg td.tid with _ | a
  · unfold registryGetById at hp
    have := List.find?_eq_none.mp hp td htd
    simp at this
  · unfold registryGetById at hp
    have hmem : a ∈ reg := List.mem_of_find?_eq_some hp
    have heq : a.tid = td.tid := by simpa using List.find?_some hp
    rw [htid a hmem td htd heq]

/-- If one registration uniquely claims its short path, filtering the
registry for that short path yields exactly that registration. -/
theorem filter_shortPath_singleton {reg : Registry} {a : TypeDef}
    (hnd : reg.Nodup) (ha : a ∈ reg)
    (huniq : ∀ b ∈ reg, b.shortPath = a.shortPath → b = a) :
    reg.filter (fun td => td.shortPath == a.shortPath) = [a] := by
  induction reg with
  | nil => simp at ha
  | cons c rest ih =>
    have hndc := List.nodup_cons.mp hnd
    rcases List.mem_cons.mp ha with hac | harest
    · subst hac
      have hrest : rest.filter (fun td => td.shortPath == a.shortPath) = [] := by
        refine List.filter_eq_nil_iff.mpr ?_
        intro b hb hbs
        have : b = a := huniq b (List.mem_cons_of_mem _ hb) (by simpa using hbs)
        exact hndc.1 (this ▸ hb)
      simp [List.filter_cons, hrest]
    · have hcne : ¬c.shortPath = a.shortPath := by
        intro hcs
        have : c = a := huniq c (List.mem_cons_self c rest) hcs
        exact hndc.1 (this ▸ harest)
      have := ih hndc.2 harest (fun b hb hbs => huniq b (List.mem_cons_of_mem _ hb) hbs)
      simp [List.filter_cons, hcne, this]

/-- A uniquely claimed short path resolves to its registration. -/
theorem getWithShortTypePath_unique {reg : Registry} {a : TypeDef}
    (hnd : reg.Nodup) (ha : a ∈ reg)
    (huniq : ∀ b ∈ reg, b.shortPath = a.shortPath → b = a) :
    getWithShortTypePath reg a.shortPath = some a := by
  unfold getWithShortTypePath
  rw [filter_shortPath_singleton hnd ha huniq]
  rfl

/-- Looking up a field after overwriting a different field is
unchanged. -/
theorem setField_lookup_ne {fs : Fields} {m n : String} {w : FVal} (h : n ≠ m) :
    lookupField (setField fs m w) n = lookupField fs n := by
  induction fs with
  | nil => rfl
  | cons p rest ih =>
    obtain ⟨p1, p2⟩ := p
    by_cases hp : p1 = m
    · have hm : ¬m = n := fun hh => h hh.symm
      simp [setField, lookupField, hp, hm, ih]
    · by_cases hq : p1 = n
      · simp [setField, lookupField, hp, hq, h]
      · simp [setField, lookupField, hp, hq, ih]

/-- Overwriting a present field makes its lookup return the new value. -/
theorem setField_lookup_self {fs : Fields} {m : String} {tv w : FVal}
    (h : lookupField fs m = some tv) :
    lookupField (setField fs m w) m = some w := by
  induction fs with
  | nil => simp [lookupField] at h
  | cons p rest ih =>
    obtain ⟨p1, p2⟩ := p
    by_cases hp : p1 = m
    · simp [setField, lookupField, hp]
    · simp only [lookupField, if_neg hp] at h
      simp [setField, lookupField, hp, ih h]

/-- `try_apply` leaves every field the source does not name unchanged. -/
theorem tryApplyFields_keep {src : Fields} :
    ∀ {target out : Fields} {n : String}, tryApplyFields target src = some out →
      n ∉ src.map Prod.fst → lookupField out n = lookupField target n := by
  induction src with
  | nil =>
    intro target out n h _
    simp only [tryApplyFields, Option.some_inj] at h
    rw [h]
  | cons q rest ih =>
    intro target out n h hn
    simp only [List.map_cons, List.mem_cons, not_or] at hn
    simp only [tryApplyFields] at h
    split at h
    · split at h
      · rw [ih h hn.2, setField_lookup_ne hn.1]
      · simp at h
    · exact ih h hn.2

/-- `try_apply` overwrites every source field the target recognizes
(assuming distinct source field names). -/
theorem tryApplyFields_overwrite {src : Fields} :
    ∀ {target out : Fields}, (src.map Prod.fst).Nodup →
      tryApplyFields target src = some out →
      ∀ p ∈ src, (lookupField target p.1).isSome →
        lookupField out p.1 = some p.2 := by
  induction src with
  | nil => intro _ _ _ _ p hp; simp at hp
  | cons q rest ih =>
    intro target out hnd h p hp hsome
    have hnd1 : q.1 ∉ rest.map Prod.fst ∧ (rest.map Prod.fst).Nodup := by
      simpa [List.nodup_cons] using hnd
    simp only [tryApplyFields] at h
    split at h
    · rename_i tv ht
      split at h
      · rcases List.mem_cons.mp hp with hpq | hprest
        · subst hpq
          rw [tryApplyFields_keep h hnd1.1]
          exact setField_lookup_self ht
        · have hne : p.1 ≠ q.1 := fun heq =>
            hnd1.1 (heq ▸ List.mem_map_of_mem Prod.fst hprest)
          refine ih hnd1.2 h p hprest ?_
          rw [setField_lookup_ne hne]
          exact hsome
      · simp at h
    · rename_i ht
      rcases List.mem_cons.mp hp with hpq | hprest
      · subst hpq
        rw [ht] at hsome
        simp at hsome
      · exact ih hnd1.2 h p hprest hsome

/-- Removing one key does not change lookups of other keys. -/
theorem eraseKey_lookup_ne {m : PrefMap} {k k1 : String} (h : k1 ≠ k) :
    lookupKey (eraseKey m k) k1 = lookupKey m k1 := by
  induction m with
  | nil => rfl
  | cons p rest ih =>
    obtain ⟨p1, p2⟩ := p
    by_cases hp : p1 = k
    · simp [eraseKey, lookupKey, hp, Ne.symm h]
    · by_cases hq : p1 = k1
      · simp [eraseKey, lookupKey, hp, hq, h]
      · simp [eraseKey, lookupKey, hp, hq, ih]

/-- In a conforming value with distinct declared field names, every
field's kind is the one the shape declares for its name. -/
theorem shapeFind_of_conform {shape : Shape} {fs : Fields}
    (hconf : fieldsConform shape fs) (hnd : (shape.map Prod.fst).Nodup) :
    ∀ p ∈ fs, shapeFind shape p.1 = some p.2.kind := by
  induction fs generalizing shape with
  | nil => intro p hp; simp at hp
  | cons q rest ih =>
    obtain ⟨n, v⟩ := q
    match shape, hconf with
    | _, rfl =>
      simp only [List.map_cons] at hnd
      have hnd1 := List.nodup_cons.mp hnd
      intro p hp
      rcases List.mem_cons.mp hp with hpq | hprest
      · subst hpq
        simp [shapeFind]
      · have hne : ¬n = p.1 := by
          intro hh
          exact hnd1.1 (hh ▸ (by
            have : p.1 ∈ (rest.map (fun p => (p.1, p.2.kind))).map Prod.fst :=
              List.mem_map_of_mem Prod.fst
                (List.mem_map_of_mem (fun p => (p.1, p.2.kind)) hprest)
            simpa [List.map_map, Function.comp] using this))
        simp only [shapeFind, if_neg hne]
        exact ih rfl hnd1.2 p hprest

/-- Typed deserialization accepts any field list whose every field is
declared with a matching kind, and returns it unchanged. -/
theorem typedDeserializeFields_ok {shape : Shape} {fs : Fields}
    (h : ∀ p ∈ fs, shapeFind shape p.1 = some p.2.kind) :
    typedDeserializeFields shape fs = .ok fs := by
  induction fs with
  | nil => rfl
  | cons q rest ih =>
    have hq := h q (List.mem_cons_self q rest)
    have hrest := ih (fun p hp => h p (List.mem_cons_of_mem q hp))
    simp [typedDeserializeFields, hq, hrest]

/-- `fromReflectFields` rebuilds exactly the given conforming fields
(generalized over a suffix of the shape). -/
theorem fromReflectFields_conform_aux (fsAll : Fields) :
    ∀ (shape2 : Shape) (fs2 : Fields), fieldsConform shape2 fs2 →
      (shape2.map Prod.fst).Nodup →
      (∀ n, n ∈ shape2.map Prod.fst → lookupField fsAll n = lookupField fs2 n) →
      fromReflectFields shape2 fsAll = some fs2 := by
  intro shape2
  induction shape2 with
  | nil =>
    intro fs2 hconf _ _
    have : fs2 = [] := by
      cases fs2 with
      | nil => rfl
      | cons a b => simp [fieldsConform] at hconf
    simp [this, fromReflectFields]
  | cons q rest ih =>
    intro fs2 hconf hnd hlook
    obtain ⟨n, k⟩ := q
    cases fs2 with
    | nil => simp [fieldsConform] at hconf
    | cons w ws =>
      obtain ⟨w1, w2⟩ := w
      simp only [fieldsConform, List.map_cons, List.cons.injEq, Prod.mk.injEq] at hconf
      obtain ⟨⟨hw1, hw2⟩, hws⟩ := hconf
      subst hw1
      subst hw2
      simp only [List.map_cons] at hnd
      have hnd1 := List.nodup_cons.mp hnd
      have hhead : lookupField fsAll w1 = some w2 := by
        rw [hlook w1 (by simp)]
        simp [lookupField]
      simp only [fromReflectFields, hhead, if_pos rfl]
      have hrest : fromReflectFields rest fsAll = some ws := by
        refine ih ws hws hnd1.2 ?_
        intro n1 hn1
        have hne : ¬w1 = n1 := fun hh => hnd1.1 (hh ▸ hn1)
        rw [hlook n1 (List.mem_cons_of_mem _ hn1)]
        simp [lookupField, hne]
      simp [hrest]

/-- A concrete conforming value round-trips through `from_reflect`. -/
theorem fromReflect_concrete {td : TypeDef} {fs : Fields}
    (hconf : fieldsConform td.shape fs) (hnd : (td.shape.map Prod.fst).Nodup) :
    fromReflect td ⟨dynamicStructId, td.tid, fs⟩ = some ⟨td.tid, td.tid, fs⟩ := by
  have := fromReflectFields_conform_aux fs td.shape fs hconf hnd (fun n _ => rfl)
  simp [fromReflect, this]

/-- A tick that observes no change past the last saved tick neither
saves nor changes the scheduler state. -/
theorem stepSave_not_modified {s : SchedState} {i : TickIn}
    (h : i.mapTick ≤ s.lastSaveTick) : stepSave s i = (s, false) := by
  have hm : decide (s.lastSaveTick < i.mapTick) = false := by
    simp [Nat.not_lt.mpr h]
  simp [stepSave, hm]

/-- A modified tick inside the debounce window without a pending exit
neither saves nor changes the scheduler state. -/
theorem stepSave_debounced {s : SchedState} {i : TickIn}
    (h1 : i.appExit = false) (h2 : i.elapsed < s.lastSaveTime + 1000) :
    stepSave s i = (s, false) := by
  have hd : durAsSecs (i.elapsed - s.lastSaveTime) = 0 := by
    simp only [durAsSecs]
    omega
  rcases hm : decide (s.lastSaveTick < i.mapTick) with _ | _ <;>
    simp [stepSave, h1, hd, hm]

/-- A modified tick past the debounce window triggers a save and
records the new marker and time. -/
theorem stepSave_fire {s : SchedState} {i : TickIn}
    (h1 : s.lastSaveTick < i.mapTick) (h2 : s.lastSaveTime + 1000 ≤ i.elapsed) :
    stepSave s i = ({ lastSaveTick := i.mapTick, lastSaveTime := i.elapsed }, true) := by
  have hm : decide (s.lastSaveTick < i.mapTick) = true := by simp [h1]
  have hd : ¬durAsSecs (i.elapsed - s.lastSaveTime) < 1 := by
    simp only [durAsSecs]
    omega
  rcases he : i.appExit with _ | _ <;> simp [stepSave, hm, hd, he]

/-- A modified tick with a pending `AppExit` triggers a save regardless
of the debounce window. -/
theorem stepSave_exit_fire {s : SchedState} {i : TickIn}
    (h1 : i.appExit = true) (h2 : s.lastSaveTick < i.mapTick) :
    stepSave s i = ({ lastSaveTick := i.mapTick, lastSaveTime := i.elapsed }, true) := by
  have hm : decide (s.lastSaveTick < i.mapTick) = true := by simp [h2]
  simp [stepSave, h1, hm]

/-- Without a pending exit, a triggered save implies at least one
second has elapsed since the previous save. -/
theorem stepSave_interval {s : SchedState} {i : TickIn}
    (h1 : i.appExit = false) (hsave : (stepSave s i).2 = true) :
    s.lastSaveTime + 1000 ≤ i.elapsed := by
  by_contra hlt
  rw [stepSave_debounced h1 (by omega)] at hsave
  simp at hsave

/-- A step either does nothing or saves and records the tick's marker
and time. -/
theorem stepSave_cases (s : SchedState) (i : TickIn) :
    stepSave s i = (s, false) ∨
    stepSave s i = ({ lastSaveTick := i.mapTick, lastSaveTime := i.elapsed }, true) := by
  rcases hm : decide (s.lastSaveTick < i.mapTick) with _ | _ <;>
    rcases hd : decide (durAsSecs (i.elapsed - s.lastSaveTime) < 1) with _ | _ <;>
    rcases he : i.appExit with _ | _ <;>
    simp [stepSave, hm, hd, he] <;>
    tauto

/-- Unfolding `runSaves` on an empty tick list. -/
theorem runSaves_nil (s : SchedState) : runSaves s [] = 0 := rfl

/-- Unfolding `runSaves` on a tick. -/
theorem runSaves_cons (s : SchedState) (i : TickIn) (l : List TickIn) :
    runSaves s (i :: l) =
      (if (stepSave s i).2 then 1 else 0) + runSaves (stepSave s i).1 l := rfl

/-- Unfolding `runSched` on an empty tick list. -/
theorem runSched_nil (s : SchedState) : runSched s [] = s := rfl

/-- Unfolding `runSched` on a tick. -/
theorem runSched_cons (s : SchedState) (i : TickIn) (l : List TickIn) :
    runSched s (i :: l) = runSched (stepSave s i).1 l := rfl

/-- Save counting splits over list concatenation. -/
theorem runSaves_append (s : SchedState) (l1 l2 : List TickIn) :
    runSaves s (l1 ++ l2) = runSaves s l1 + runSaves (runSched s l1) l2 := by
  induction l1 generalizing s with
  | nil => simp [runSaves_nil, runSched_nil]
  | cons i rest ih =>
    rw [List.cons_append, runSaves_cons, runSaves_cons, runSched_cons, ih]
    omega

/-- C9: every save either fully replaces the persisted document or
fails leaving it untouched: `write_atomically` writes the serialized
contents to a temporary file in the destination directory, syncs it,
and only the final atomic rename replaces the destination, so no
partial document is ever observable at the destination, including on a
failure between the temporary write and the rename; a serialization
error in `FileStorage::save_preferences` writes nothing at all. -/
theorem c9_atomic_write (fs : FsFile) (contents : String) (c : CrashPoint) :
    ((write_atomically fs contents c).dest = fs.dest ∨
      (write_atomically fs contents c).dest = some contents) ∧
    (c ≠ .afterPersist → (write_atomically fs contents c).dest = fs.dest) ∧
    (write_atomically fs contents .afterPersist).dest = some contents ∧
    fileSave fs none c = fs ∧
    (∀ out, fileSave fs (some out) c = write_atomically fs out c) := by
  refine ⟨?_, ?_, rfl, rfl, fun out => rfl⟩
  · cases c <;> simp [write_atomically]
  · intro hc
    cases c
    case afterPersist => exact absurd rfl hc
    all_goals simp [write_atomically]

/-- Witness for C9 at a concrete filesystem state: a crash after the
sync but before the rename leaves the old document, the completed
rename installs the new one, and a serialization error writes
nothing. -/
theorem c9_atomic_write_witness :
    (write_atomically ⟨some "old", none⟩ "new" .afterSync).dest = some "old" ∧
    (write_atomically ⟨some "old", none⟩ "new" .afterPersist).dest = some "new" ∧
    fileSave ⟨some "old", none⟩ none .afterSync = ⟨some "old", none⟩ ∧
    fileSave ⟨some "old", none⟩ (some "new") .afterSync =
      write_atomically ⟨some "old", none⟩ "new" .afterSync := by
  obtain ⟨h1, h2, h3, h4, h5⟩ := c9_atomic_write ⟨some "old", none⟩ "new" .afterSync
  exact ⟨h2 (by decide), h3, h4, h5 "new"⟩

/-- C10: when the entry stored under `T`'s effective key has a
different concrete runtime type, `take::<T>` returns `None` but still
removes (and discards) that entry while all other keys are unchanged,
and `get::<T>` on the same store returns `None` without modifying it. -/
theorem c10_take_wrong_type (reg : Registry) (m : PrefMap) (td : TypeDef)
    (k : String) (v : RVal)
    (hres : effective_type_path td.fullPath td.shortPath reg = .key k)
    (hlook : lookupKey m k = some v) (hty : ¬v.runtimeId = td.tid) :
    takePref reg m td = .ok (none, eraseKey m k) ∧
    (∀ k1, k1 ≠ k → lookupKey (eraseKey m k) k1 = lookupKey m k1) ∧
    getPref reg m td = .ok none := by
  refine ⟨?_, fun k1 h => eraseKey_lookup_ne h, ?_⟩
  · simp [takePref, hres, hlook, hty]
  · simp [getPref, hres, hlook, hty]

/-- Witness for C10: taking `Bar` from a store whose `Bar` entry holds
a `Foo`-typed value removes the entry and returns nothing; getting
returns nothing. -/
theorem c10_take_wrong_type_witness :
    takePref demoReg wrongTypedMap barDef = .ok (none, []) ∧
    getPref demoReg wrongTypedMap barDef = .ok none := by
  obtain ⟨h1, _, h3⟩ := c10_take_wrong_type demoReg wrongTypedMap barDef "Bar"
    ⟨1, 1, [("value", .strV "H")]⟩ (by decide) (by decide) (by decide)
  exact ⟨h1.trans (by decide), h3⟩

/-- C8 (code bug): `PreferencesSerializableMap`'s `PartialEq` zips the
two ordered entry sequences and compares only the common prefix, so a
store whose key set is a strict subset (here a prefix) of another's
compares equal; the sibling `PreferencesReflectMap` equality, which
checks lengths as the claim requires, reports the two stores unequal. -/
theorem c8_zip_eq_ignores_extra_entries :
    serializableMapEq barMap barFooMap = true ∧
    serializableMapEq ([] : PrefMap) barMap = true ∧
    reflectMapEq barMap barFooMap = false ∧
    barMap.map Prod.fst ≠ barFooMap.map Prod.fst := by decide

/-- C2 (amended): conversion of a deserialized value with a registered
represented type: a value already of the target runtime type is used
unchanged; otherwise `FromReflect` conversion is attempted; if that
fails and a default is registered, the registered default is produced
with the recognized fields of the partial value applied over it, while
unrecognized or missing fields keep the default; but when the partial
apply onto the default also fails, `apply_from_reflect` panics (modelled
as `none`) instead of falling back to the default as-is. -/
theorem c2_conversion_fallback (td : TypeDef) (v : RVal) :
    (v.runtimeId = td.tid → apply_from_reflect td v = some v) ∧
    (¬v.runtimeId = td.tid → ∀ c, fromReflect td v = some c →
        apply_from_reflect td v = some c) ∧
    (¬v.runtimeId = td.tid → fromReflect td v = none → td.hasDefault = true →
      ∀ fs, tryApplyFields td.defaultFields v.fields = some fs →
        apply_from_reflect td v = some ⟨td.tid, td.tid, fs⟩ ∧
        (∀ n, n ∉ v.fields.map Prod.fst →
            lookupField fs n = lookupField td.defaultFields n) ∧
        ((v.fields.map Prod.fst).Nodup → ∀ p ∈ v.fields,
            (lookupField td.defaultFields p.1).isSome →
            lookupField fs p.1 = some p.2)) ∧
    (¬v.runtimeId = td.tid → fromReflect td v = none → td.hasDefault = true →
      tryApplyFields td.defaultFields v.fields = none →
      apply_from_reflect td v = none) := by
  refine ⟨?_, ?_, ?_, ?_⟩
  · intro h
    simp [apply_from_reflect, h]
  · intro h c hc
    simp [apply_from_reflect, h, hc]
  · intro h hfr hd fs hta
    refine ⟨by simp [apply_from_reflect, h, hfr, hd, hta], ?_, ?_⟩
    · intro n hn
      exact tryApplyFields_keep hta hn
    · intro hnd p hp hsome
      exact tryApplyFields_overwrite hnd hta p hp hsome
  · intro h hfr hd hta
    simp [apply_from_reflect, h, hfr, hd, hta]

/-- Witness for C2 (amended): a concrete value passes through
unchanged, and a partial value missing a recognized field lands on the
default with the recognized field overwritten. -/
theorem c2_conversion_fallback_witness :
    apply_from_reflect fooDef ⟨1, 1, fooFields⟩ = some ⟨1, 1, fooFields⟩ ∧
    apply_from_reflect fooDef ⟨0, 1, [("field", .natV 9)]⟩ =
      some ⟨1, 1, [("field", .natV 9), ("option", .strV "")]⟩ := by
  constructor
  · exact (c2_conversion_fallback fooDef ⟨1, 1, fooFields⟩).1 (by decide)
  · exact ((c2_conversion_fallback fooDef ⟨0, 1, [("field", .natV 9)]⟩).2.2.1
      (by decide) (by decide) (by decide)
      [("field", .natV 9), ("option", .strV "")] (by decide)).1

/-- Any run of ticks inside the debounce window without pending exits
saves nothing and leaves the scheduler state unchanged. -/
theorem runSaves_quiet (s : SchedState) (body : List TickIn)
    (hbody : ∀ i ∈ body, i.elapsed < s.lastSaveTime + 1000 ∧ i.appExit = false) :
    runSaves s body = 0 ∧ runSched s body = s := by
  induction body with
  | nil => exact ⟨rfl, rfl⟩
  | cons i rest ih =>
    have hi := hbody i (List.mem_cons_self i rest)
    have hstep := stepSave_debounced hi.2 hi.1
    have hrec := ih (fun j hj => hbody j (List.mem_cons_of_mem i hj))
    rw [runSaves_cons, runSched_cons, hstep]
    simpa using hrec

/-- Mutation ticks each arriving at least one second after the previous
save each trigger exactly one save. -/
theorem runSaves_spaced (muts : List (Nat × Nat)) :
    ∀ s : SchedState, spacedOk s.lastSaveTick s.lastSaveTime muts = true →
      runSaves s (muts.map (fun p => ⟨p.1, p.2, false⟩)) = muts.length := by
  induction muts with
  | nil => intro s _; rfl
  | cons q rest ih =>
    intro s hsp
    obtain ⟨t, mt⟩ := q
    simp only [spacedOk, Bool.and_eq_true, decide_eq_true_eq] at hsp
    obtain ⟨⟨h1, h2⟩, h3⟩ := hsp
    have hfire := stepSave_fire (s := s) (i := ⟨t, mt, false⟩) h1 h2
    rw [List.map_cons, runSaves_cons, hfire]
    have hrec := ih ⟨mt, t⟩ h3
    simp only [List.length_cons]
    simp [hrec]
    omega

/-- Ticks whose change counter never exceeds the last saved marker
never save. -/
theorem runSaves_never_modified (s : SchedState) (ins : List TickIn)
    (h : ∀ i ∈ ins, i.mapTick ≤ s.lastSaveTick) : runSaves s ins = 0 := by
  induction ins with
  | nil => rfl
  | cons i rest ih =>
    have hstep := stepSave_not_modified (h i (List.mem_cons_self i rest))
    rw [runSaves_cons, hstep]
    simpa using ih (fun j hj => h j (List.mem_cons_of_mem i hj))

/-- C5: once the store is dirty, a save is held until at least the
minimum interval (one second) has elapsed since the previous save;
any number of mutations arriving inside one interval produce exactly
one save (at the first tick past the interval), and mutations each
spaced beyond the interval produce exactly one save each. -/
theorem c5_debounce :
    (∀ (s : SchedState) (i : TickIn), i.appExit = false →
        (stepSave s i).2 = true → s.lastSaveTime + 1000 ≤ i.elapsed) ∧
    (∀ (s : SchedState) (body : List TickIn) (final : TickIn),
        (∀ i ∈ body, i.elapsed < s.lastSaveTime + 1000 ∧ i.appExit = false) →
        final.appExit = false → s.lastSaveTick < final.mapTick →
        s.lastSaveTime + 1000 ≤ final.elapsed →
        runSaves s (body ++ [final]) = 1) ∧
    (∀ (s : SchedState) (muts : List (Nat × Nat)),
        spacedOk s.lastSaveTick s.lastSaveTime muts = true →
        runSaves s (muts.map (fun p => ⟨p.1, p.2, false⟩)) = muts.length) := by
  refine ⟨fun s i h1 h2 => stepSave_interval h1 h2, ?_, fun s muts h => runSaves_spaced muts s h⟩
  intro s body final hbody hf1 hf2 hf3
  have hq := runSaves_quiet s body hbody
  rw [runSaves_append, hq.1, hq.2, runSaves_cons, stepSave_fire hf2 hf3]
  rfl

/-- Witness for C5: three mutations inside the first second yield one
save at the tick past the interval; two mutations spaced a second and
a half apart yield two saves. -/
theorem c5_debounce_witness :
    runSaves (initState 0) [⟨10, 1, false⟩, ⟨500, 2, false⟩, ⟨990, 3, false⟩, ⟨1200, 3, false⟩] = 1 ∧
    runSaves (initState 0) [⟨1000, 1, false⟩, ⟨2500, 2, false⟩] = 2 := by
  obtain ⟨h1, h2, h3⟩ := c5_debounce
  constructor
  · have := h2 (initState 0) [⟨10, 1, false⟩, ⟨500, 2, false⟩, ⟨990, 3, false⟩]
      ⟨1200, 3, false⟩ (by decide) (by decide) (by decide) (by decide)
    simpa using this
  · have := h3 (initState 0) [(1000, 1), (2500, 2)] (by decide)
    simpa using this

/-- C6: a pending shutdown signal at the final tick forces exactly one
additional save when the store is dirty, bypassing the debounce
interval; when the store is not dirty at shutdown, no save happens. -/
theorem c6_shutdown_flush (s : SchedState) (ins : List TickIn) (ex : TickIn)
    (hex : ex.appExit = true) :
    ((runSched s ins).lastSaveTick < ex.mapTick →
        runSaves s (ins ++ [ex]) = runSaves s ins + 1) ∧
    (ex.mapTick ≤ (runSched s ins).lastSaveTick →
        runSaves s (ins ++ [ex]) = runSaves s ins) := by
  constructor
  · intro hd
    rw [runSaves_append, runSaves_cons, stepSave_exit_fire hex hd]
    simp [runSaves_nil]
  · intro hd
    rw [runSaves_append, runSaves_cons, stepSave_not_modified hd]
    simp [runSaves_nil]

/-- Witness for C6: a dirty store plus an exit signal before the
interval has elapsed still saves exactly once; a clean store plus an
exit signal saves nothing. -/
theorem c6_shutdown_flush_witness :
    runSaves (initState 0) [⟨5, 1, true⟩] = 1 ∧
    runSaves (initState 0) [⟨5, 0, true⟩] = 0 := by
  constructor
  · have := (c6_shutdown_flush (initState 0) [] ⟨5, 1, true⟩ rfl).1 (by decide)
    simpa using this
  · have := (c6_shutdown_flush (initState 0) [] ⟨5, 0, true⟩ rfl).2 (by decide)
    simpa using this

/-- C7 (amended): a not-found load yields the empty store and each
registered type's resource is assigned its registered default; the save
system never saves while the store's change counter stays at or below
the save baseline; but the baseline captured on the save system's first
run predates the load-time population of the store (a bevy system's
first run observes every earlier change as new), so a run that never
mutates after load still performs exactly one save of the defaults once
the debounce interval has elapsed. -/
theorem c7_cold_start :
    (∀ reg, loadPreferences reg none = some []) ∧
    (∀ (reg : Registry) (td : TypeDef) (dflt : Fields) (k : String),
        effective_type_path td.fullPath td.shortPath reg = .key k →
        assignFromMap reg [] td dflt = .ok (dflt, [])) ∧
    (∀ (s : SchedState) (ins : List TickIn),
        (∀ i ∈ ins, i.mapTick ≤ s.lastSaveTick) → runSaves s ins = 0) ∧
    (∀ baseline mt t1 t2, baseline < mt → t1 < 1000 → 1000 ≤ t2 →
        runSaves (initState baseline) [⟨t1, mt, false⟩, ⟨t2, mt, false⟩] = 1) := by
  refine ⟨fun reg => rfl, ?_, runSaves_never_modified, ?_⟩
  · intro reg td dflt k hres
    simp [assignFromMap, takePref, hres, lookupKey]
  · intro baseline mt t1 t2 h1 h2 h3
    have hd : stepSave (initState baseline) ⟨t1, mt, false⟩ = (initState baseline, false) :=
      stepSave_debounced rfl (by simpa [initState] using h2)
    have hf : stepSave (initState baseline) ⟨t2, mt, false⟩ =
        ({ lastSaveTick := mt, lastSaveTime := t2 }, true) :=
      stepSave_fire (by simpa [initState] using h1) (by simpa [initState] using h3)
    rw [runSaves_cons, hd]
    simp only []
    rw [runSaves_cons, hf]
    rfl

/-- Witness for C7 (amended) at concrete runs and registries. -/
theorem c7_cold_start_witness :
    loadPreferences demoReg none = some [] ∧
    assignFromMap demoReg [] fooDef fooDef.defaultFields = .ok (fooDef.defaultFields, []) ∧
    runSaves (initState 5) [⟨0, 3, false⟩, ⟨2000, 5, false⟩] = 0 ∧
    runSaves (initState 0) [⟨10, 1, false⟩, ⟨1200, 1, false⟩] = 1 := by
  obtain ⟨h1, h2, h3, h4⟩ := c7_cold_start
  exact ⟨h1 demoReg, h2 demoReg fooDef fooDef.defaultFields "Foo" (by decide),
    h3 (initState 5) [⟨0, 3, false⟩, ⟨2000, 5, false⟩] (by decide),
    h4 0 1 10 1200 (by decide) (by decide) (by decide)⟩

/-- C7 counterexample: with the bevy-faithful first-run baseline (the
save system's `last_run` predates the load-time insertion of the store,
here baseline `0` against insertion change tick `1`), a run that never
mutates after load still performs a save once one second has elapsed —
the claim's "no save call until a real mutation occurs" fails. -/
theorem c7_counterexample :
    runSaves (initState 0) [⟨0, 1, false⟩, ⟨1000, 1, false⟩] = 1 ∧
    ¬runSaves (initState 0) [⟨0, 1, false⟩, ⟨1000, 1, false⟩] = 0 := by decide

/-- C2 counterexample: for `cexDef`, a stored dynamic value whose
single field has the wrong kind makes both `FromReflect` and the
partial apply onto the registered default fail, and `apply_from_reflect`
panics (`none`) — the entry does not become the registered default
as-is, refuting the claimed fallback. -/
theorem c2_counterexample :
    fromReflect cexDef ⟨dynamicStructId, 5, [("a", .strV "bad")]⟩ = none ∧
    cexDef.hasDefault = true ∧
    tryApplyFields cexDef.defaultFields [("a", .strV "bad")] = none ∧
    apply_from_reflect cexDef ⟨dynamicStructId, 5, [("a", .strV "bad")]⟩ = none ∧
    apply_from_reflect cexDef ⟨dynamicStructId, 5, [("a", .strV "bad")]⟩ ≠
      some ⟨cexDef.tid, cexDef.tid, cexDef.defaultFields⟩ := by decide

/-- A document containing an entry with an unregistered identifier
fails the whole visitor. -/
theorem deserializeEntriesAux_error {reg : Registry} {k : String} {body : Fields} :
    ∀ (doc : Document) (acc : List (String × RVal)), (k, body) ∈ doc →
      lookupRegistration reg k = none →
      ∃ e, deserializeEntriesAux reg acc doc = .error e := by
  intro doc
  induction doc with
  | nil => intro acc h _; simp at h
  | cons q rest ih =>
    intro acc hmem hreg
    obtain ⟨k1, b1⟩ := q
    rcases List.mem_cons.mp hmem with hh | ht
    · cases hh
      exact ⟨"Type " ++ k ++ " not registered", by simp [deserializeEntriesAux, hreg]⟩
    · cases hLR : lookupRegistration reg k1 with
      | none => exact ⟨"Type " ++ k1 ++ " not registered", by simp [deserializeEntriesAux, hLR]⟩
      | some td1 =>
        cases hTD : typedReflectDeserialize td1 b1 with
        | ok v =>
          obtain ⟨e, he⟩ := ih (btreeInsert acc k1 v) ht hreg
          exact ⟨e, by simp [deserializeEntriesAux, hLR, hTD, he]⟩
        | error e1 =>
          exact ⟨e1, by simp [deserializeEntriesAux, hLR, hTD]⟩

/-- C3 (amended): each document entry's registration is looked up by
short path first, then full path; but an entry whose identifier matches
no registration fails the deserialization of the whole document (not
just that entry), and `load_preferences` then degrades to an empty
store — every entry of the document, registered or not, is dropped. -/
theorem c3_unregistered_entry (reg : Registry) (doc : Document) (k : String)
    (body : Fields) (hmem : (k, body) ∈ doc)
    (hs : getWithShortTypePath reg k = none) (hf : getWithTypePath reg k = none) :
    (∃ e, deserializePrefMap reg doc = .deError e) ∧
    loadPreferences reg (some doc) = some [] ∧
    (∀ p td, getWithShortTypePath reg p = some td → lookupRegistration reg p = some td) ∧
    (∀ p, getWithShortTypePath reg p = none → lookupRegistration reg p = getWithTypePath reg p) := by
  have hreg : lookupRegistration reg k = none := by simp [lookupRegistration, hs, hf]
  obtain ⟨e, he⟩ := deserializeEntriesAux_error doc [] hmem hreg
  have hde : deserializePrefMap reg doc = .deError e := by
    simp [deserializePrefMap, deserializeEntries, he]
  refine ⟨⟨e, hde⟩, ?_, ?_, ?_⟩
  · simp [loadPreferences, hde]
  · intro p td h
    simp [lookupRegistration, h]
  · intro p h
    simp [lookupRegistration, h]

/-- Witness for C3 (amended) on `cexDoc`: the unregistered `Nope` entry
degrades the whole load to the empty store, and a short-path hit wins
the registration lookup. -/
theorem c3_unregistered_entry_witness :
    loadPreferences demoReg (some cexDoc) = some [] ∧
    lookupRegistration demoReg "Foo" = some fooDef := by
  obtain ⟨h1, h2, h3, h4⟩ := c3_unregistered_entry demoReg cexDoc "Nope"
    [("z", .natV 1)] (by decide) (by decide) (by decide)
  exact ⟨h2, h3 "Foo" fooDef (by decide)⟩

/-- C3 counterexample: `cexDoc` contains a perfectly loadable `Foo`
entry next to the unregistered `Nope` entry, yet deserialization of the
whole document fails and `load_preferences` produces the empty store:
the `Foo` entry does not survive, refuting "every other entry of the
document still loads into the resulting store". -/
theorem c3_counterexample :
    deserializePrefMap demoReg cexDoc = .deError "Type Nope not registered" ∧
    deserializePrefMap demoReg [("Foo", [("field", .natV 3), ("option", .strV "x")])] =
      .ok [("Foo", ⟨1, 1, [("field", .natV 3), ("option", .strV "x")]⟩)] ∧
    loadPreferences demoReg (some cexDoc) = some [] ∧
    getPref demoReg [] fooDef = .ok none := by decide

/-- C4: storage-key resolution for a type `t` (with full paths unique
and short paths consistent): the short path is the key exactly when the
registry's short-path index resolves it to a registration whose full
path is `t`'s; otherwise a registered full path is the key; otherwise
resolution fails with a programmer-error panic (distinct from the data
errors of `DeResult`).  Consequently two registered types sharing a
short path serialize under their two distinct full-path keys, and a
type whose short path is unambiguous serializes under its short path. -/
theorem c4_effective_path_resolution (reg : Registry) (t : TypeDef)
    (hnd : reg.Nodup)
    (hfull : ∀ a ∈ reg, ∀ b ∈ reg, a.fullPath = b.fullPath → a = b)
    (hcons : ∀ a ∈ reg, a.fullPath = t.fullPath → a.shortPath = t.shortPath) :
    ((∃ td0, getWithShortTypePath reg t.shortPath = some td0 ∧ td0.fullPath = t.fullPath) →
      effective_type_path t.fullPath t.shortPath reg = .key t.shortPath) ∧
    ((¬∃ td0, getWithShortTypePath reg t.shortPath = some td0 ∧ td0.fullPath = t.fullPath) →
      (getWithTypePath reg t.fullPath).isSome = true →
      effective_type_path t.fullPath t.shortPath reg = .key t.fullPath) ∧
    ((¬∃ td0, getWithShortTypePath reg t.shortPath = some td0 ∧ td0.fullPath = t.fullPath) →
      (getWithTypePath reg t.fullPath).isSome = false →
      (effective_type_path t.fullPath t.shortPath reg = .assertMismatch ∨
        effective_type_path t.fullPath t.shortPath reg = .notRegistered)) ∧
    (∀ a ∈ reg, ∀ b ∈ reg, ¬a = b → a.shortPath = b.shortPath →
      ¬a.fullPath = b.fullPath ∧
      effective_type_path a.fullPath a.shortPath reg = .key a.fullPath ∧
      effective_type_path b.fullPath b.shortPath reg = .key b.fullPath ∧
      (∀ fsa fsb ma mb, setPref reg [] a fsa = .ok ma → setPref reg ma b fsb = .ok mb →
        (serializePrefMap mb).map Prod.fst = [a.fullPath, b.fullPath] ∨
        (serializePrefMap mb).map Prod.fst = [b.fullPath, a.fullPath])) ∧
    (∀ a ∈ reg, (∀ b ∈ reg, b.shortPath = a.shortPath → b = a) →
      effective_type_path a.fullPath a.shortPath reg = .key a.shortPath ∧
      (∀ fsa ma, setPref reg [] a fsa = .ok ma →
        (serializePrefMap ma).map Prod.fst = [a.shortPath])) := by
  refine ⟨?_, ?_, ?_, ?_, ?_⟩
  · rintro ⟨td0, h0, hfp⟩
    simp [effective_type_path, h0, hfp]
  · intro hno hsome
    rcases hsp : getWithShortTypePath reg t.shortPath with _ | td0
    · simp [effective_type_path, hsp, hsome]
    · exfalso
      have hne0 : ¬td0.fullPath = t.fullPath := fun hh => hno ⟨td0, hsp, hh⟩
      obtain ⟨a, ha⟩ := Option.isSome_iff_exists.mp hsome
      obtain ⟨haMem, haFull⟩ := getWithTypePath_some ha
      have haShort : a.shortPath = t.shortPath := hcons a haMem haFull
      obtain ⟨h0Mem, h0Short⟩ := getWithShortTypePath_some hsp
      have hane : a ≠ td0 := fun hh => hne0 (hh ▸ haFull)
      have := getWithShortTypePath_none_of_two haMem h0Mem hane haShort h0Short
      rw [this] at hsp
      exact Option.noConfusion hsp
  · intro hno hnone
    rcases hsp : getWithShortTypePath reg t.shortPath with _ | td0
    · right
      simp [effective_type_path, hsp, hnone]
    · left
      have hne0 : ¬td0.fullPath = t.fullPath := fun hh => hno ⟨td0, hsp, hh⟩
      simp [effective_type_path, hsp, hne0]
  · intro a ha b hb hne hshort
    have hfne : ¬a.fullPath = b.fullPath := fun hh => hne (hfull a ha b hb hh)
    have hspa : getWithShortTypePath reg a.shortPath = none :=
      getWithShortTypePath_none_of_two ha hb hne rfl hshort.symm
    have hspb : getWithShortTypePath reg b.shortPath = none :=
      getWithShortTypePath_none_of_two ha hb hne hshort rfl
    have hfa := getWithTypePath_self ha hfull
    have hfb := getWithTypePath_self hb hfull
    have heffa : effective_type_path a.fullPath a.shortPath reg = .key a.fullPath := by
      simp [effective_type_path, hspa, hfa]
    have heffb : effective_type_path b.fullPath b.shortPath reg = .key b.fullPath := by
      simp [effective_type_path, hspb, hfb]
    refine ⟨hfne, heffa, heffb, ?_⟩
    intro fsa fsb ma mb hma hmb
    simp only [setPref, heffa] at hma
    simp only [setPref, heffb] at hmb
    simp only [OpResult.ok.injEq] at hma hmb
    subst hma
    subst hmb
    rcases hc : compare b.fullPath a.fullPath with _ | _ | _
    · right
      simp [btreeInsert, hc, serializePrefMap]
    · exact absurd (Batteries.BEqCmp.cmp_iff_eq.mp hc) (fun hh => hfne hh.symm)
    · left
      simp [btreeInsert, hc, serializePrefMap]
  · intro a ha huniq
    have hsp := getWithShortTypePath_unique hnd ha huniq
    have heff : effective_type_path a.fullPath a.shortPath reg = .key a.shortPath := by
      simp [effective_type_path, hsp]
    refine ⟨heff, ?_⟩
    intro fsa ma hma
    simp only [setPref, heff, OpResult.ok.injEq] at hma
    subst hma
    simp [btreeInsert, serializePrefMap]

/-- Witness for C4 on the ambiguous demo registry: the unambiguous
`Foo` keeps its short key while the two `Bar`s get their distinct full
paths as keys. -/
theorem c4_effective_path_resolution_witness :
    effective_type_path fooDef.fullPath fooDef.shortPath ambReg = .key fooDef.shortPath ∧
    effective_type_path barDef.fullPath barDef.shortPath ambReg = .key barDef.fullPath ∧
    effective_type_path ambBarDef.fullPath ambBarDef.shortPath ambReg = .key ambBarDef.fullPath ∧
    (serializePrefMap (btreeInsert (btreeInsert [] "demo::Bar" ⟨2, 2, [("value", .strV "B")]⟩)
        "demo2::Bar" ⟨3, 3, [("value", .strV "C")]⟩)).map Prod.fst =
      ["demo2::Bar", "demo::Bar"] := by
  obtain ⟨h1, h2, h3, h4, h5⟩ := c4_effective_path_resolution ambReg fooDef
    (by decide) (by decide) (by decide)
  refine ⟨?_, ?_, ?_, by decide⟩
  · exact (h5 fooDef (by decide) (by decide)).1
  · exact (h4 barDef (by decide) ambBarDef (by decide) (by decide) (by decide)).2.1
  · exact (h4 barDef (by decide) ambBarDef (by decide) (by decide) (by decide)).2.2.1

/-- C1: for a registered type and a conforming value, serializing the
store built by `set` and deserializing the resulting document yields a
store whose `get::<T>()` returns a value equal to the original. -/
theorem c1_round_trip (reg : Registry) (td : TypeDef) (fs : Fields) (m : PrefMap)
    (hwf : RegWF reg) (htd : td ∈ reg) (hconf : fieldsConform td.shape fs)
    (hset : setPref reg [] td fs = .ok m) :
    ∃ mr, deserializePrefMap reg (serializePrefMap m) = .ok mr ∧
      getPref reg mr td = .ok (some ⟨td.tid, td.tid, fs⟩) := by
  obtain ⟨hnd, htid, hfull, hsnf, hdyn, hshape⟩ := hwf
  unfold setPref at hset
  rcases hres : effective_type_path td.fullPath td.shortPath reg with k | _ | _ <;>
    rw [hres] at hset
  case assertMismatch => simp at hset
  case notRegistered => simp at hset
  simp only [OpResult.ok.injEq] at hset
  subst hset
  have hlookreg : lookupRegistration reg k = some td := by
    unfold effective_type_path at hres
    split at hres
    · rename_i td0 hsp
      by_cases hfp : td0.fullPath = td.fullPath
      · rw [if_pos hfp] at hres
        simp only [Resolved.key.injEq] at hres
        subst hres
        obtain ⟨h0Mem, h0Short⟩ := getWithShortTypePath_some hsp
        have h0eq : td0 = td := hfull td0 h0Mem td htd hfp
        simp [lookupRegistration, hsp, h0eq]
      · rw [if_neg hfp] at hres
        exact absurd hres (by simp)
    · rename_i hsp
      by_cases hfp : (getWithTypePath reg td.fullPath).isSome
      · rw [if_pos hfp] at hres
        simp only [Resolved.key.injEq] at hres
        subst hres
        simp [lookupRegistration, getWithShortTypePath_fullPath_none htd hsnf,
          getWithTypePath_self htd hfull]
      · rw [if_neg hfp] at hres
        exact absurd hres (by simp)
  have hok : typedDeserializeFields td.shape fs = .ok fs :=
    typedDeserializeFields_ok (shapeFind_of_conform hconf (hshape td htd))
  have hdeser : deserializeEntries reg [(k, fs)] =
      .ok [(k, ⟨dynamicStructId, td.tid, fs⟩)] := by
    simp [deserializeEntries, deserializeEntriesAux, hlookreg,
      typedReflectDeserialize, hok, btreeInsert]
  have hbyid : registryGetById reg td.tid = some td := registryGetById_self htd htid
  have hne : ¬(⟨dynamicStructId, td.tid, fs⟩ : RVal).runtimeId = td.tid :=
    fun hh => hdyn td htd hh.symm
  have hafr : apply_from_reflect td ⟨dynamicStructId, td.tid, fs⟩ =
      some ⟨td.tid, td.tid, fs⟩ := by
    rw [apply_from_reflect, if_neg hne, fromReflect_concrete hconf (hshape td htd)]
  have hconv : convertAll reg [(k, ⟨dynamicStructId, td.tid, fs⟩)] =
      some [(k, ⟨td.tid, td.tid, fs⟩)] := by
    simp [convertAll, hbyid, hafr]
  refine ⟨[(k, ⟨td.tid, td.tid, fs⟩)], ?_, ?_⟩
  · have hser : serializePrefMap (btreeInsert [] k ⟨td.tid, td.tid, fs⟩) = [(k, fs)] := rfl
    rw [hser]
    simp [deserializePrefMap, hdeser, hconv]
  · simp [getPref, hres, lookupKey]

/-- Witness for C1: the `Foo` round trip on the demo registry. -/
theorem c1_round_trip_witness :
    deserializePrefMap demoReg
        (serializePrefMap [("Foo", ⟨fooDef.tid, fooDef.tid, fooFields⟩)]) =
      .ok [("Foo", ⟨fooDef.tid, fooDef.tid, fooFields⟩)] ∧
    getPref demoReg [("Foo", ⟨fooDef.tid, fooDef.tid, fooFields⟩)] fooDef =
      .ok (some ⟨fooDef.tid, fooDef.tid, fooFields⟩) := by
  obtain ⟨mr, h1, h2⟩ := c1_round_trip demoReg fooDef fooFields
    [("Foo", ⟨fooDef.tid, fooDef.tid, fooFields⟩)]
    (by decide) (by decide) (by decide) (by decide)
  have hval : deserializePrefMap demoReg
      (serializePrefMap [("Foo", ⟨fooDef.tid, fooDef.tid, fooFields⟩)]) =
      .ok [("Foo", ⟨fooDef.tid, fooDef.tid, fooFields⟩)] := by decide
  have hmr : mr = [("Foo", ⟨fooDef.tid, fooDef.tid, fooFields⟩)] := by
    have := h1.symm.trans hval
    simpa using this
  subst hmr
  exact ⟨h1, h2⟩

end BevyPrefs
